import Mathlib

/-!
Shallow embedding of the email-deliverability verifier.

The program checks, for each input domain, the presence of MX records,
an SPF TXT record, a DMARC TXT record under the literal subdomain
prefixed with the DMARC label, and optionally probes the mail server of the domain
over TCP port 25.  Network effects (DNS resolution, TCP dialing)
are abstracted into a `NetEnv` record of pure functions: a resolver
call either fails or returns the record list in resolver order, and a
dial attempt on an address either fails with an error text or succeeds
with a measured elapsed time in milliseconds.  `checkDomain` below is a
line-by-line translation of the source function of the same name; the
pipeline end (collect all outcomes, sort by domain) is `sortResults`.
-/

/-- Mirror of the Go struct holding one verification outcome; the
default field values are Go zero values, as produced by the struct
literal that only sets the domain. -/
structure Result where
  domain : String := ""
  hasMX : Bool := false
  mxHosts : List String := []
  hasSPF : Bool := false
  spf : String := ""
  hasDMARC : Bool := false
  dmarc : String := ""
  smtpReach : Bool := false
  latencyMs : Int := 0
  error : String := ""
  deriving Repr, DecidableEq

/-- Abstract network environment: DNS lookups return either a failure
or the record list in resolver-returned order; a dial on an address
returns either the connection error text or the elapsed wall-clock
milliseconds of the successful probe (connect plus handshake). -/
structure NetEnv where
  lookupMX : String → Except Unit (List String)
  lookupTXT : String → Except Unit (List String)
  dial : String → Except String Int

/-- Codepoint-level scan deciding whether the second list starts the
first: Go compares byte sequences, which on valid UTF-8 agrees with
this codepoint comparison. -/
def startsWithChars : List Char → List Char → Bool
  | [], _ => true
  | _ :: _, [] => false
  | t :: ts, c :: cs => t == c && startsWithChars ts cs

/-- Mirror of strings.HasPrefix: does s start with the tag. -/
def strStartsWith (s tag : String) : Bool := startsWithChars tag.data s.data

/-- Mirror of strings.HasSuffix: does s end with the given suffix. -/
def strEndsWith (s suffix : String) : Bool :=
  startsWithChars suffix.data.reverse s.data.reverse

/-- Mirror of strings.ContainsRune over the codepoints of s. -/
def strContains (s : String) (c : Char) : Bool := s.data.contains c

/-- Mirror of strings.TrimSuffix: drop the suffix when present,
otherwise return the string unchanged. -/
def trimSuffix (s suffix : String) : String :=
  if strEndsWith s suffix then ⟨s.data.take (s.data.length - suffix.length)⟩
  else s

/-- Mirror of net.JoinHostPort: bracket the host when it contains a
colon, then append the colon and the port. -/
def joinHostPort (host port : String) : String :=
  if strContains host ':' then "[" ++ host ++ "]:" ++ port
  else host ++ ":" ++ port

/-- The first-match-wins TXT scan shared by the SPF and the DMARC
steps: return the first record starting with the tag, scanning in
list order, stopping at the first match. -/
def firstMatching (tag : String) : List String → Option String
  | [] => none
  | record :: rest =>
    if strStartsWith record tag then some record else firstMatching tag rest

/-- MX step of checkDomain: on a successful, non-empty lookup set
hasMX and collect the hosts with one trailing dot stripped, in
resolver order; otherwise leave the fields at their zero values. -/
def checkMX (env : NetEnv) (domain : String) (res : Result) : Result :=
  match env.lookupMX domain with
  | .ok mxRecords =>
    if 0 < mxRecords.length then
      { res with hasMX := true,
                 mxHosts := mxRecords.map (fun mx => trimSuffix mx ".") }
    else res
  | .error _ => res

/-- SPF step of checkDomain: scan the TXT records of the domain for the
first one starting with the SPF version tag. -/
def checkSPF (env : NetEnv) (domain : String) (res : Result) : Result :=
  match env.lookupTXT domain with
  | .ok txtRecords =>
    match firstMatching ("v=spf1") txtRecords with
    | some record => { res with hasSPF := true, spf := record }
    | none => res
  | .error _ => res

/-- DMARC step of checkDomain: same scan against the TXT records of
the literal subdomain under the DMARC label. -/
def checkDMARC (env : NetEnv) (domain : String) (res : Result) : Result :=
  match env.lookupTXT ("_dmarc." ++ domain) with
  | .ok dmarcTxtRecords =>
    match firstMatching ("v=DMARC1") dmarcTxtRecords with
    | some record => { res with hasDMARC := true, dmarc := record }
    | none => res
  | .error _ => res

/-- The SMTP probe loop of checkDomain: try each target on port 25 in
order, remembering the last connection error; the first successful
dial sets smtpReach and the elapsed latency, resets the remembered
error and stops; once the list is exhausted a remembered error is
written into the outcome. -/
def smtpAttempts (env : NetEnv) (res : Result) :
    List String → Option String → Result
  | [], lastErr =>
    match lastErr with
    | some e => { res with error := e }
    | none => res
  | h :: rest, _ =>
    match env.dial (joinHostPort h ("25")) with
    | .error e => smtpAttempts env res rest (some e)
    | .ok elapsedMs =>
      { res with smtpReach := true, latencyMs := elapsedMs }

/-- SMTP step of checkDomain: the probe targets are the collected MX
hosts, or the domain itself when that list is empty. -/
def checkSMTP (env : NetEnv) (domain : String) (res : Result) : Result :=
  smtpAttempts env res
    (if res.mxHosts.length = 0 then [domain] else res.mxHosts) none

/-- Translation of the source checkDomain: MX, SPF and DMARC lookups
in sequence, then the SMTP probe only when requested. -/
def checkDomain (env : NetEnv) (domain : String) (smtpCheck : Bool) : Result :=
  let res : Result := { domain := domain }
  let res := checkMX env domain res
  let res := checkSPF env domain res
  let res := checkDMARC env domain res
  if smtpCheck then checkSMTP env domain res else res

/-- The EHLO response reader (lines 304-312 of the source): read
available lines one at a time; stop after a line shorter than four
characters or whose fourth character is not a dash; reading past the
supplied lines models a read error or timeout, which also stops the
loop.  The value is the list of lines consumed. -/
def ehloReadLines : List String → List String
  | [] => []
  | line :: rest =>
    if line.length < 4 ∨ line.data[3]? ≠ some '-' then [line]
    else line :: ehloReadLines rest

/-- Spec-side notion for the EHLO reader: a continuation line of a
multi-line SMTP reply, i.e. a line of at least four characters whose
fourth character is the dash continuation marker. -/
def isContinuationLine (line : String) : Bool :=
  4 ≤ line.length && line.data[3]? == some '-'

/-- The per-run verification map: one outcome per input entry, in
input order, duplicates included. -/
def verifyAll (env : NetEnv) (smtpCheck : Bool) (domains : List String) :
    List Result :=
  domains.map (fun d => checkDomain env d smtpCheck)

/-- Comparison used by the final sort: ascending by the domain field
under the lexicographic codepoint order on strings. -/
def resultLE (a b : Result) : Bool := decide (a.domain ≤ b.domain)

/-- The Sorter: order the collected outcomes by domain name. -/
def sortResults (collected : List Result) : List Result :=
  collected.mergeSort resultLE

/-- The MX step leaves every field other than hasMX and mxHosts
untouched. -/
theorem checkMX_pres (env : NetEnv) (domain : String) (res : Result) :
    (checkMX env domain res).domain = res.domain ∧
    (checkMX env domain res).hasSPF = res.hasSPF ∧
    (checkMX env domain res).spf = res.spf ∧
    (checkMX env domain res).hasDMARC = res.hasDMARC ∧
    (checkMX env domain res).dmarc = res.dmarc ∧
    (checkMX env domain res).smtpReach = res.smtpReach ∧
    (checkMX env domain res).latencyMs = res.latencyMs ∧
    (checkMX env domain res).error = res.error := by
  unfold checkMX
  split <;> (try split) <;> simp

/-- The SPF step leaves every field other than hasSPF and spf
untouched. -/
theorem checkSPF_pres (env : NetEnv) (domain : String) (res : Result) :
    (checkSPF env domain res).domain = res.domain ∧
    (checkSPF env domain res).hasMX = res.hasMX ∧
    (checkSPF env domain res).mxHosts = res.mxHosts ∧
    (checkSPF env domain res).hasDMARC = res.hasDMARC ∧
    (checkSPF env domain res).dmarc = res.dmarc ∧
    (checkSPF env domain res).smtpReach = res.smtpReach ∧
    (checkSPF env domain res).latencyMs = res.latencyMs ∧
    (checkSPF env domain res).error = res.error := by
  unfold checkSPF
  split <;> (try split) <;> simp

/-- The DMARC step leaves every field other than hasDMARC and dmarc
untouched. -/
theorem checkDMARC_pres (env : NetEnv) (domain : String) (res : Result) :
    (checkDMARC env domain res).domain = res.domain ∧
    (checkDMARC env domain res).hasMX = res.hasMX ∧
    (checkDMARC env domain res).mxHosts = res.mxHosts ∧
    (checkDMARC env domain res).hasSPF = res.hasSPF ∧
    (checkDMARC env domain res).spf = res.spf ∧
    (checkDMARC env domain res).smtpReach = res.smtpReach ∧
    (checkDMARC env domain res).latencyMs = res.latencyMs ∧
    (checkDMARC env domain res).error = res.error := by
  unfold checkDMARC
  split <;> (try split) <;> simp

/-- The SMTP probe loop leaves the domain and the DNS-derived fields
untouched. -/
theorem smtpAttempts_pres (env : NetEnv) (res : Result) :
    ∀ (targets : List String) (lastErr : Option String),
      (smtpAttempts env res targets lastErr).domain = res.domain ∧
      (smtpAttempts env res targets lastErr).hasMX = res.hasMX ∧
      (smtpAttempts env res targets lastErr).mxHosts = res.mxHosts ∧
      (smtpAttempts env res targets lastErr).hasSPF = res.hasSPF ∧
      (smtpAttempts env res targets lastErr).spf = res.spf ∧
      (smtpAttempts env res targets lastErr).hasDMARC = res.hasDMARC ∧
      (smtpAttempts env res targets lastErr).dmarc = res.dmarc := by
  intro targets
  induction targets with
  | nil =>
    intro lastErr
    unfold smtpAttempts
    cases lastErr <;> simp
  | cons h rest ih =>
    intro lastErr
    unfold smtpAttempts
    cases env.dial (joinHostPort h ("25"))
    · exact ih _
    · simp

/-- The three DNS stages in sequence preserve the probe-related
fields. -/
theorem dnsStages_pres (env : NetEnv) (domain : String) (res : Result) :
    (checkDMARC env domain (checkSPF env domain (checkMX env domain res))).smtpReach
        = res.smtpReach ∧
    (checkDMARC env domain (checkSPF env domain (checkMX env domain res))).latencyMs
        = res.latencyMs ∧
    (checkDMARC env domain (checkSPF env domain (checkMX env domain res))).error
        = res.error := by
  obtain ⟨-, -, -, -, -, m6, m7, m8⟩ := checkMX_pres env domain res
  obtain ⟨-, -, -, -, -, s6, s7, s8⟩ :=
    checkSPF_pres env domain (checkMX env domain res)
  obtain ⟨-, -, -, -, -, d6, d7, d8⟩ :=
    checkDMARC_pres env domain (checkSPF env domain (checkMX env domain res))
  refine ⟨?_, ?_, ?_⟩
  · rw [d6, s6, m6]
  · rw [d7, s7, m7]
  · rw [d8, s8, m8]

/-- The DNS phase of checkDomain: the MX, SPF and DMARC steps applied
in sequence to the fresh outcome record. -/
def dnsPhase (env : NetEnv) (domain : String) : Result :=
  checkDMARC env domain (checkSPF env domain (checkMX env domain { domain := domain }))

/-- With the SMTP stage disabled, checkDomain is exactly the DNS
phase. -/
theorem checkDomain_false (env : NetEnv) (domain : String) :
    checkDomain env domain false = dnsPhase env domain := rfl

/-- With the SMTP stage enabled, checkDomain is the DNS phase followed
by the SMTP step. -/
theorem checkDomain_true (env : NetEnv) (domain : String) :
    checkDomain env domain true = checkSMTP env domain (dnsPhase env domain) := rfl

/-- The DNS-derived fields of a checkDomain outcome are those of the
DNS phase, whatever the SMTP flag. -/
theorem checkDomain_dns_fields (env : NetEnv) (domain : String) (smtpCheck : Bool) :
    (checkDomain env domain smtpCheck).hasMX = (dnsPhase env domain).hasMX ∧
    (checkDomain env domain smtpCheck).mxHosts = (dnsPhase env domain).mxHosts ∧
    (checkDomain env domain smtpCheck).hasSPF = (dnsPhase env domain).hasSPF ∧
    (checkDomain env domain smtpCheck).spf = (dnsPhase env domain).spf ∧
    (checkDomain env domain smtpCheck).hasDMARC = (dnsPhase env domain).hasDMARC ∧
    (checkDomain env domain smtpCheck).dmarc = (dnsPhase env domain).dmarc := by
  cases smtpCheck
  · rw [checkDomain_false]
    exact ⟨rfl, rfl, rfl, rfl, rfl, rfl⟩
  · rw [checkDomain_true]
    unfold checkSMTP
    obtain ⟨-, a2, a3, a4, a5, a6, a7⟩ :=
      smtpAttempts_pres env (dnsPhase env domain) _ none
    exact ⟨a2, a3, a4, a5, a6, a7⟩

/-- C2: with the SMTP stage disabled, every outcome has smtpReach
false and an empty error text, whatever the environment returns for
the MX, SPF and DMARC lookups. -/
theorem smtp_disabled_no_probe_no_error (env : NetEnv) (domain : String) :
    (checkDomain env domain false).smtpReach = false ∧
    (checkDomain env domain false).error = "" := by
  obtain ⟨h1, -, h3⟩ := dnsStages_pres env domain { domain := domain }
  simp only [checkDomain, Bool.false_eq_true, if_false]
  exact ⟨h1, h3⟩

/-- The scan returns the first record carrying the tag: records before
it do not match, it does, and the records after it are not looked
at. -/
theorem firstMatching_append (tag : String) (pre : List String) (r : String)
    (post : List String)
    (hpre : ∀ x ∈ pre, strStartsWith x tag = false)
    (hr : strStartsWith r tag = true) :
    firstMatching tag (pre ++ r :: post) = some r := by
  induction pre with
  | nil => simp [firstMatching, hr]
  | cons a as ih =>
    have ha : strStartsWith a tag = false := hpre a (List.mem_cons_self a as)
    have hrest : ∀ x ∈ as, strStartsWith x tag = false :=
      fun x hx => hpre x (List.mem_cons_of_mem a hx)
    simp only [List.cons_append, firstMatching, ha, Bool.false_eq_true, if_false]
    exact ih hrest

/-- The scan returns nothing when no record carries the tag. -/
theorem firstMatching_none (tag : String) (recs : List String)
    (h : ∀ x ∈ recs, strStartsWith x tag = false) :
    firstMatching tag recs = none := by
  induction recs with
  | nil => rfl
  | cons a as ih =>
    have ha : strStartsWith a tag = false := h a (List.mem_cons_self a as)
    simp only [firstMatching, ha, Bool.false_eq_true, if_false]
    exact ih fun x hx => h x (List.mem_cons_of_mem a hx)

/-- The SPF fields of a checkDomain outcome are a function of the TXT
lookup of the domain alone: the first record tagged with the SPF
version tag when the lookup succeeds, nothing otherwise. -/
theorem checkDomain_spf_eq (env : NetEnv) (domain : String) (smtpCheck : Bool) :
    ((checkDomain env domain smtpCheck).hasSPF,
      (checkDomain env domain smtpCheck).spf) =
    (match env.lookupTXT domain with
      | .ok txtRecords =>
        match firstMatching ("v=spf1") txtRecords with
        | some record => (true, record)
        | none => (false, "")
      | .error _ => (false, "")) := by
  obtain ⟨-, -, h3, h4, -, -⟩ := checkDomain_dns_fields env domain smtpCheck
  rw [h3, h4]
  unfold dnsPhase
  obtain ⟨-, -, -, s4, s5, -, -, -⟩ :=
    checkDMARC_pres env domain (checkSPF env domain (checkMX env domain { domain := domain }))
  rw [s4, s5]
  have hm := checkMX_pres env domain { domain := domain }
  unfold checkSPF
  split
  · split <;> simp_all
  · simp_all

/-- The DMARC fields of a checkDomain outcome are a function of the
TXT lookup of the literal DMARC subdomain alone. -/
theorem checkDomain_dmarc_eq (env : NetEnv) (domain : String) (smtpCheck : Bool) :
    ((checkDomain env domain smtpCheck).hasDMARC,
      (checkDomain env domain smtpCheck).dmarc) =
    (match env.lookupTXT ("_dmarc." ++ domain) with
      | .ok dmarcTxtRecords =>
        match firstMatching ("v=DMARC1") dmarcTxtRecords with
        | some record => (true, record)
        | none => (false, "")
      | .error _ => (false, "")) := by
  obtain ⟨-, -, -, -, h5, h6⟩ := checkDomain_dns_fields env domain smtpCheck
  rw [h5, h6]
  unfold dnsPhase
  have hm := checkMX_pres env domain { domain := domain }
  have hs := checkSPF_pres env domain (checkMX env domain { domain := domain })
  unfold checkDMARC
  split
  · split <;> simp_all
  · simp_all

/-- C3: the SPF step scans the TXT records of the domain in resolver
order; the first record starting with the SPF version tag sets hasSPF
and spfRecord to its full text, independently of the records after
it; when no record matches, or the lookup fails, both fields keep
their zero values. -/
theorem spf_first_match_wins (env : NetEnv) (domain : String) (smtpCheck : Bool) :
    (∀ txtRecords pre record post,
        env.lookupTXT domain = Except.ok txtRecords →
        txtRecords = pre ++ record :: post →
        (∀ x ∈ pre, strStartsWith x ("v=spf1") = false) →
        strStartsWith record ("v=spf1") = true →
        (checkDomain env domain smtpCheck).hasSPF = true ∧
        (checkDomain env domain smtpCheck).spf = record) ∧
    (∀ txtRecords,
        env.lookupTXT domain = Except.ok txtRecords →
        (∀ x ∈ txtRecords, strStartsWith x ("v=spf1") = false) →
        (checkDomain env domain smtpCheck).hasSPF = false ∧
        (checkDomain env domain smtpCheck).spf = "") ∧
    (∀ e, env.lookupTXT domain = Except.error e →
        (checkDomain env domain smtpCheck).hasSPF = false ∧
        (checkDomain env domain smtpCheck).spf = "") := by
  refine ⟨?_, ?_, ?_⟩
  · intro txtRecords pre record post hlook hrecs hpre hr
    have hkey := checkDomain_spf_eq env domain smtpCheck
    simp only [hlook, hrecs,
      firstMatching_append ("v=spf1") pre record post hpre hr,
      Prod.mk.injEq] at hkey
    exact hkey
  · intro txtRecords hlook hnone
    have hkey := checkDomain_spf_eq env domain smtpCheck
    simp only [hlook, firstMatching_none ("v=spf1") txtRecords hnone,
      Prod.mk.injEq] at hkey
    exact hkey
  · intro e hlook
    have hkey := checkDomain_spf_eq env domain smtpCheck
    simp only [hlook, Prod.mk.injEq] at hkey
    exact hkey

/-- C4: the DMARC step resolves TXT records of the literal DMARC
subdomain of the domain and applies the same first-match-wins scan
with the DMARC version tag; no match or a failed lookup leaves both
fields at their zero values; and the DMARC fields depend on nothing
but that one lookup, in particular not on the outcome of the SPF step. -/
theorem dmarc_first_match_wins (env : NetEnv) (domain : String) (smtpCheck : Bool) :
    (∀ recs pre record post,
        env.lookupTXT ("_dmarc." ++ domain) = Except.ok recs →
        recs = pre ++ record :: post →
        (∀ x ∈ pre, strStartsWith x ("v=DMARC1") = false) →
        strStartsWith record ("v=DMARC1") = true →
        (checkDomain env domain smtpCheck).hasDMARC = true ∧
        (checkDomain env domain smtpCheck).dmarc = record) ∧
    (∀ recs,
        env.lookupTXT ("_dmarc." ++ domain) = Except.ok recs →
        (∀ x ∈ recs, strStartsWith x ("v=DMARC1") = false) →
        (checkDomain env domain smtpCheck).hasDMARC = false ∧
        (checkDomain env domain smtpCheck).dmarc = "") ∧
    (∀ e, env.lookupTXT ("_dmarc." ++ domain) = Except.error e →
        (checkDomain env domain smtpCheck).hasDMARC = false ∧
        (checkDomain env domain smtpCheck).dmarc = "") ∧
    (∀ (env2 : NetEnv) (smtpCheck2 : Bool),
        env2.lookupTXT ("_dmarc." ++ domain) = env.lookupTXT ("_dmarc." ++ domain) →
        (checkDomain env2 domain smtpCheck2).hasDMARC =
          (checkDomain env domain smtpCheck).hasDMARC ∧
        (checkDomain env2 domain smtpCheck2).dmarc =
          (checkDomain env domain smtpCheck).dmarc) := by
  refine ⟨?_, ?_, ?_, ?_⟩
  · intro recs pre record post hlook hrecs hpre hr
    have hkey := checkDomain_dmarc_eq env domain smtpCheck
    simp only [hlook, hrecs,
      firstMatching_append ("v=DMARC1") pre record post hpre hr,
      Prod.mk.injEq] at hkey
    exact hkey
  · intro recs hlook hnone
    have hkey := checkDomain_dmarc_eq env domain smtpCheck
    simp only [hlook, firstMatching_none ("v=DMARC1") recs hnone,
      Prod.mk.injEq] at hkey
    exact hkey
  · intro e hlook
    have hkey := checkDomain_dmarc_eq env domain smtpCheck
    simp only [hlook, Prod.mk.injEq] at hkey
    exact hkey
  · intro env2 smtpCheck2 hagree
    have hkey := checkDomain_dmarc_eq env domain smtpCheck
    have hkey2 := checkDomain_dmarc_eq env2 domain smtpCheck2
    rw [hagree] at hkey2
    have := hkey2.trans hkey.symm
    simpa using this

/-- The MX fields of a checkDomain outcome are a function of the MX
lookup alone: hosts with one trailing dot stripped, in resolver order,
when the lookup succeeds non-empty; zero values otherwise. -/
theorem checkDomain_mx_eq (env : NetEnv) (domain : String) (smtpCheck : Bool) :
    ((checkDomain env domain smtpCheck).hasMX,
      (checkDomain env domain smtpCheck).mxHosts) =
    (match env.lookupMX domain with
      | .ok mxRecords =>
        if 0 < mxRecords.length then
          (true, mxRecords.map (fun mx => trimSuffix mx "."))
        else (false, [])
      | .error _ => (false, [])) := by
  obtain ⟨h1, h2, -, -, -, -⟩ := checkDomain_dns_fields env domain smtpCheck
  obtain ⟨-, hs2, hs3, -, -, -, -, -⟩ :=
    checkSPF_pres env domain (checkMX env domain { domain := domain })
  obtain ⟨-, hd2, hd3, -, -, -, -, -⟩ :=
    checkDMARC_pres env domain
      (checkSPF env domain (checkMX env domain { domain := domain }))
  rw [h1, h2]
  unfold dnsPhase
  rw [hd2, hd3, hs2, hs3]
  unfold checkMX
  split
  · split <;> simp
  · simp

/-- C5: hasMX and mxHosts come from the MX lookup alone — false/empty
on failure or an empty record set, and otherwise true together with
the resolver-ordered hosts each stripped of one trailing root-zone
dot; in every outcome mxHosts is empty exactly when hasMX is false;
and with the probe stage off the error text stays empty even when the
MX lookup fails. -/
theorem mx_fields_from_lookup (env : NetEnv) (domain : String) (smtpCheck : Bool) :
    (∀ e, env.lookupMX domain = Except.error e →
        (checkDomain env domain smtpCheck).hasMX = false ∧
        (checkDomain env domain smtpCheck).mxHosts = []) ∧
    (env.lookupMX domain = Except.ok [] →
        (checkDomain env domain smtpCheck).hasMX = false ∧
        (checkDomain env domain smtpCheck).mxHosts = []) ∧
    (∀ mxRecords, env.lookupMX domain = Except.ok mxRecords → mxRecords ≠ [] →
        (checkDomain env domain smtpCheck).hasMX = true ∧
        (checkDomain env domain smtpCheck).mxHosts =
          mxRecords.map (fun mx => trimSuffix mx ".")) ∧
    ((checkDomain env domain smtpCheck).mxHosts = [] ↔
        (checkDomain env domain smtpCheck).hasMX = false) ∧
    (smtpCheck = false → (checkDomain env domain smtpCheck).error = "") := by
  have hkey := checkDomain_mx_eq env domain smtpCheck
  refine ⟨?_, ?_, ?_, ?_, ?_⟩
  · intro e hlook
    simp only [hlook, Prod.mk.injEq] at hkey
    exact hkey
  · intro hlook
    simp only [hlook, List.length_nil, lt_self_iff_false, if_false, Prod.mk.injEq] at hkey
    exact hkey
  · intro mxRecords hlook hne
    have hlen : 0 < mxRecords.length := List.length_pos.mpr hne
    simp only [hlook, hlen, if_true, Prod.mk.injEq] at hkey
    exact hkey
  · rcases hcase : env.lookupMX domain with e | mxRecords
    · simp only [hcase, Prod.mk.injEq] at hkey
      simp [hkey.1, hkey.2]
    · by_cases hlen : 0 < mxRecords.length
      · simp only [hcase, hlen, if_true, Prod.mk.injEq] at hkey
        rw [hkey.1, hkey.2]
        have : mxRecords.map (fun mx => trimSuffix mx ".") ≠ [] := by
          simp [List.map_eq_nil_iff]
          intro hnil
          rw [hnil] at hlen
          simp at hlen
        simp [this]
      · simp only [hcase, hlen, if_false, Prod.mk.injEq] at hkey
        simp [hkey.1, hkey.2]
  · intro hsc
    subst hsc
    obtain ⟨-, -, h3⟩ := dnsStages_pres env domain { domain := domain }
    exact h3

/-- A probe loop outcome whose smtpReach flag is still down kept the
latency it started with: the latency is written only together with
raising the flag. -/
theorem smtpAttempts_latency (env : NetEnv) (res : Result) :
    ∀ (targets : List String) (lastErr : Option String),
      (smtpAttempts env res targets lastErr).smtpReach = false →
      (smtpAttempts env res targets lastErr).latencyMs = res.latencyMs := by
  intro targets
  induction targets with
  | nil =>
    intro lastErr hreach
    unfold smtpAttempts
    cases lastErr <;> simp
  | cons h rest ih =>
    intro lastErr
    unfold smtpAttempts
    cases env.dial (joinHostPort h ("25"))
    · exact ih _
    · intro hreach
      simp at hreach

/-- C10: an outcome that is not SMTP-reachable always carries a
latency of exactly zero, for every environment, domain and probe
flag. -/
theorem not_reachable_latency_zero (env : NetEnv) (domain : String)
    (smtpCheck : Bool)
    (h : (checkDomain env domain smtpCheck).smtpReach = false) :
    (checkDomain env domain smtpCheck).latencyMs = 0 := by
  obtain ⟨-, hlat, -⟩ := dnsStages_pres env domain { domain := domain }
  cases smtpCheck
  · rw [checkDomain_false] at *
    exact hlat
  · rw [checkDomain_true] at *
    unfold checkSMTP at *
    rw [smtpAttempts_latency env (dnsPhase env domain) _ none h]
    exact hlat

/-- In the probe loop the first target that dials successfully wins:
targets before it all failed, it returns the outcome with the flag
raised and the elapsed time of that target, targets after it are never
dialed and no error text is written. -/
theorem smtpAttempts_first_success (env : NetEnv) (res : Result) :
    ∀ (pre : List String) (h : String) (post : List String)
      (lastErr : Option String) (lat : Int),
      (∀ x ∈ pre, ∃ e, env.dial (joinHostPort x ("25")) = Except.error e) →
      env.dial (joinHostPort h ("25")) = Except.ok lat →
      smtpAttempts env res (pre ++ h :: post) lastErr =
        { res with smtpReach := true, latencyMs := lat } := by
  intro pre
  induction pre with
  | nil =>
    intro h post lastErr lat _ hdial
    rw [List.nil_append]
    unfold smtpAttempts
    rw [hdial]
  | cons a as ih =>
    intro h post lastErr lat hfail hdial
    obtain ⟨e, he⟩ := hfail a (List.mem_cons_self a as)
    rw [List.cons_append]
    unfold smtpAttempts
    rw [he]
    exact ih h post (some e) lat
      (fun x hx => hfail x (List.mem_cons_of_mem a hx)) hdial

/-- When every target fails to dial, the probe loop returns the
outcome it started from with only the error text of the last attempt
written into it. -/
theorem smtpAttempts_all_fail (env : NetEnv) (res : Result) :
    ∀ (pre : List String) (lastHost lastText : String)
      (lastErr : Option String),
      (∀ x ∈ pre, ∃ e, env.dial (joinHostPort x ("25")) = Except.error e) →
      env.dial (joinHostPort lastHost ("25")) = Except.error lastText →
      smtpAttempts env res (pre ++ [lastHost]) lastErr =
        { res with error := lastText } := by
  intro pre
  induction pre with
  | nil =>
    intro lastHost lastText lastErr _ hdial
    rw [List.nil_append]
    unfold smtpAttempts
    rw [hdial]
    rfl
  | cons a as ih =>
    intro lastHost lastText lastErr hfail hdial
    obtain ⟨e, he⟩ := hfail a (List.mem_cons_self a as)
    rw [List.cons_append]
    unfold smtpAttempts
    rw [he]
    exact ih lastHost lastText (some e)
      (fun x hx => hfail x (List.mem_cons_of_mem a hx)) hdial

/-- The probe loop changes the error text only along the path that
never dialed successfully: an outcome whose error text differs from
the starting one kept the starting reachability flag. -/
theorem smtpAttempts_error_keeps_flag (env : NetEnv) (res : Result) :
    ∀ (targets : List String) (lastErr : Option String),
      (smtpAttempts env res targets lastErr).error ≠ res.error →
      (smtpAttempts env res targets lastErr).smtpReach = res.smtpReach := by
  intro targets
  induction targets with
  | nil =>
    intro lastErr herr
    unfold smtpAttempts at *
    cases lastErr <;> simp_all
  | cons h rest ih =>
    intro lastErr
    unfold smtpAttempts
    cases env.dial (joinHostPort h ("25"))
    · exact ih _
    · intro herr
      simp_all

/-- C6: with the probe requested, the target list is the collected MX
hosts, or the domain alone when there are none; targets are dialed in
order on port 25, and the first successful one raises smtpReach,
records its own elapsed time as the latency, leaves the error text
empty, and ends the scan with the remaining targets never dialed. -/
theorem smtp_first_reachable_wins (env : NetEnv) (domain : String)
    (pre : List String) (h : String) (post : List String) (lat : Int)
    (htargets :
      (if (checkDomain env domain true).mxHosts = []
        then [domain] else (checkDomain env domain true).mxHosts)
        = pre ++ h :: post)
    (hfail : ∀ x ∈ pre, ∃ e, env.dial (joinHostPort x ("25")) = Except.error e)
    (hdial : env.dial (joinHostPort h ("25")) = Except.ok lat) :
    (checkDomain env domain true).smtpReach = true ∧
    (checkDomain env domain true).latencyMs = lat ∧
    (checkDomain env domain true).error = "" := by
  obtain ⟨-, -, herr0⟩ := dnsStages_pres env domain { domain := domain }
  obtain ⟨-, hmx, -, -, -, -⟩ := checkDomain_dns_fields env domain true
  rw [checkDomain_true] at *
  unfold checkSMTP at *
  rw [hmx] at htargets
  have hlen :
      (if (dnsPhase env domain).mxHosts.length = 0
        then [domain] else (dnsPhase env domain).mxHosts) = pre ++ h :: post := by
    simp only [List.length_eq_zero]
    exact htargets
  rw [hlen, smtpAttempts_first_success env (dnsPhase env domain) pre h post none lat hfail hdial]
  exact ⟨rfl, rfl, herr0⟩

/-- C7: with the probe requested and every target failing to dial, the
error text is exactly the error text of the last attempt and the outcome is
not reachable; conversely a non-empty error text in any outcome means
the probe was requested and the outcome is not reachable. -/
theorem smtp_all_fail_sets_error (env : NetEnv) (domain : String) :
    (∀ (pre : List String) (lastHost lastText : String),
      (if (checkDomain env domain true).mxHosts = []
        then [domain] else (checkDomain env domain true).mxHosts)
        = pre ++ [lastHost] →
      (∀ x ∈ pre, ∃ e, env.dial (joinHostPort x ("25")) = Except.error e) →
      env.dial (joinHostPort lastHost ("25")) = Except.error lastText →
      (checkDomain env domain true).error = lastText ∧
      (checkDomain env domain true).smtpReach = false) ∧
    (∀ smtpCheck : Bool, (checkDomain env domain smtpCheck).error ≠ "" →
      smtpCheck = true ∧ (checkDomain env domain smtpCheck).smtpReach = false) := by
  obtain ⟨hreach0, -, herr0⟩ := dnsStages_pres env domain { domain := domain }
  constructor
  · intro pre lastHost lastText htargets hfail hdial
    obtain ⟨-, hmx, -, -, -, -⟩ := checkDomain_dns_fields env domain true
    rw [checkDomain_true] at *
    unfold checkSMTP at *
    rw [hmx] at htargets
    have hlen :
        (if (dnsPhase env domain).mxHosts.length = 0
          then [domain] else (dnsPhase env domain).mxHosts) = pre ++ [lastHost] := by
      simp only [List.length_eq_zero]
      exact htargets
    rw [hlen, smtpAttempts_all_fail env (dnsPhase env domain) pre lastHost lastText none hfail hdial]
    exact ⟨rfl, hreach0⟩
  · intro smtpCheck herr
    cases smtpCheck
    · rw [checkDomain_false] at herr
      unfold dnsPhase at *
      exact absurd herr0 herr
    · refine ⟨rfl, ?_⟩
      rw [checkDomain_true] at *
      unfold checkSMTP at *
      rw [smtpAttempts_error_keeps_flag env (dnsPhase env domain) _ none ?hne]
      · exact hreach0
      · unfold dnsPhase at *
        rw [herr0]
        exact herr

/-- C8: the EHLO reader consumes exactly the longest block of
continuation lines (fourth character a dash) followed by the one
terminating line when the input supplies it — it never validates
status codes, and a read error simply ends the loop. -/
theorem ehlo_reads_longest_continuation_block (lines : List String) :
    ehloReadLines lines =
      lines.takeWhile isContinuationLine ++
        (lines.dropWhile isContinuationLine).take 1 := by
  induction lines with
  | nil => rfl
  | cons line rest ih =>
    cases hc : isContinuationLine line with
    | true =>
      have hnot : ¬(line.length < 4 ∨ line.data[3]? ≠ some '-') := by
        simp only [isContinuationLine, Bool.and_eq_true, decide_eq_true_eq,
          beq_iff_eq] at hc
        push_neg
        exact ⟨hc.1, hc.2⟩
      simp [ehloReadLines, hnot, List.takeWhile_cons, hc, List.dropWhile_cons, ih]
    | false =>
      have hyes : line.length < 4 ∨ line.data[3]? ≠ some '-' := by
        rcases lt_or_ge line.length 4 with h4 | h4
        · exact Or.inl h4
        · right
          intro hsome
          have hcont : isContinuationLine line = true := by
            simp [isContinuationLine, h4, hsome]
          rw [hcont] at hc
          cases hc
      simp [ehloReadLines, hyes, List.takeWhile_cons, hc, List.dropWhile_cons]

/-- C1: whatever order the collector receives the outcomes in, the
emitted sequence is a permutation of the per-input outcomes — exactly
one per input entry, duplicates included, so exactly K outcomes for K
inputs — and it is sorted ascending by the domain field under the
lexicographic codepoint order on strings. -/
theorem pipeline_complete_and_sorted (env : NetEnv) (smtpCheck : Bool)
    (domains : List String) (collected : List Result)
    (hperm : collected.Perm (verifyAll env smtpCheck domains)) :
    (sortResults collected).length = domains.length ∧
    (sortResults collected).Perm (verifyAll env smtpCheck domains) ∧
    (sortResults collected).Pairwise (fun a b => a.domain ≤ b.domain) := by
  have htrans : ∀ (a b c : Result), resultLE a b → resultLE b c → resultLE a c := by
    intro a b c hab hbc
    simp only [resultLE, decide_eq_true_eq] at *
    exact le_trans hab hbc
  have htotal : ∀ (a b : Result), resultLE a b || resultLE b a := by
    intro a b
    simp only [resultLE, Bool.or_eq_true, decide_eq_true_eq]
    exact le_total a.domain b.domain
  refine ⟨?_, ?_, ?_⟩
  · rw [sortResults]
    simp only [List.length_mergeSort]
    rw [hperm.length_eq, verifyAll, List.length_map]
  · exact (List.mergeSort_perm collected resultLE).trans hperm
  · have hs := List.sorted_mergeSort htrans htotal collected
    exact hs.imp (fun hab => by simpa [resultLE] using hab)

/-- Model of the pacing gate (the ticker of the source main function):
with a positive configured rate, tick number k is generated at
wall-clock time k divided by the rate, counted from run start; the
tick channel delivers every generated tick at most once, and each
verification start first receives one tick.  A run is recorded as the
wall-clock time of every admission together with the number of the
tick it consumed: distinct admissions consume distinct ticks, no tick
is consumed before it was generated, and there is no bursting or
token accumulation — the time of a tick is fixed by its number alone. -/
structure TickerRun where
  rate : ℚ
  count : ℕ
  recvTime : Fin count → ℚ
  tickIndex : Fin count → ℕ
  tick_pos : ∀ i, 1 ≤ tickIndex i
  tick_inj : Function.Injective tickIndex
  recv_after_tick : ∀ i, (tickIndex i : ℚ) / rate ≤ recvTime i

/-- Worker-side gate of the source main loop: a worker waits for a
tick only when the rate flag was positive, so a zero rate never
blocks. -/
def tickConfigured (rate : ℕ) : Bool := decide (0 < rate)

/-- C9: in every run that admits M verification starts through a
pacing gate of positive rate R, some admission waited for at least the
M-th tick, so the total elapsed wall time is at least (M-1)/R seconds;
and with a zero rate the gate is absent and never blocks. -/
theorem rate_pacing_lower_bound (run : TickerRun) (elapsed : ℚ)
    (hR : 0 < run.rate) (hM : 1 ≤ run.count)
    (hdone : ∀ i, run.recvTime i ≤ elapsed) :
    ((run.count - 1 : ℕ) : ℚ) / run.rate ≤ elapsed ∧ tickConfigured 0 = false := by
  refine ⟨?_, rfl⟩
  have hex : ∃ i : Fin run.count, run.count ≤ run.tickIndex i := by
    by_contra hcon
    push_neg at hcon
    have hsub : ∀ i : Fin run.count, run.tickIndex i ∈ Finset.Ico 1 run.count :=
      fun i => Finset.mem_Ico.mpr ⟨run.tick_pos i, hcon i⟩
    have hcard : (Finset.univ : Finset (Fin run.count)).card ≤
        (Finset.Ico 1 run.count).card :=
      Finset.card_le_card_of_injOn run.tickIndex
        (fun i _ => hsub i) (run.tick_inj.injOn)
    rw [Finset.card_univ, Fintype.card_fin, Nat.card_Ico] at hcard
    omega
  obtain ⟨i, hi⟩ := hex
  have h1 : ((run.count - 1 : ℕ) : ℚ) ≤ (run.tickIndex i : ℚ) := by
    exact_mod_cast le_trans (Nat.sub_le run.count 1) hi
  calc ((run.count - 1 : ℕ) : ℚ) / run.rate
      ≤ (run.tickIndex i : ℚ) / run.rate := by gcongr
    _ ≤ run.recvTime i := run.recv_after_tick i
    _ ≤ elapsed := hdone i

/-- Concrete test environment: one domain with two MX hosts (the first
with a trailing root-zone dot and a refused dial, the second
reachable), TXT records carrying a non-SPF entry before the SPF record
and a further SPF-tagged entry after it, and one DMARC record under
the DMARC subdomain; every other name fails to resolve and every
other address fails to dial. -/
def envA : NetEnv where
  lookupMX := fun d =>
    if d = "a.com" then Except.ok ["mx1.a.com.", "mx2.a.com"]
    else Except.error ()
  lookupTXT := fun d =>
    if d = "a.com" then
      Except.ok ["other=1", "v=spf1 include:_spf.example.com ~all", "v=spf1 x"]
    else if d = "_dmarc.a.com" then Except.ok ["v=DMARC1; p=none"]
    else Except.error ()
  dial := fun addr =>
    if addr = "mx1.a.com:25" then Except.error "dial tcp: connection refused"
    else if addr = "mx2.a.com:25" then Except.ok 42
    else Except.error "dial tcp: no route to host"

/-- Witness for the SPF first-match claim on the concrete environment:
the record after the non-matching entry wins and the later SPF-tagged
entry is ignored. -/
theorem spf_first_match_wins_witness :
    envA.lookupTXT ("a.com") =
      Except.ok ["other=1", "v=spf1 include:_spf.example.com ~all", "v=spf1 x"] ∧
    (checkDomain envA ("a.com") false).hasSPF = true ∧
    (checkDomain envA ("a.com") false).spf =
      "v=spf1 include:_spf.example.com ~all" := by
  refine ⟨rfl, ?_⟩
  exact (spf_first_match_wins envA ("a.com") false).1
    ["other=1", "v=spf1 include:_spf.example.com ~all", "v=spf1 x"]
    ["other=1"] ("v=spf1 include:_spf.example.com ~all") ["v=spf1 x"]
    rfl rfl (by decide) (by decide)

/-- Witness for the DMARC first-match claim on the concrete
environment. -/
theorem dmarc_first_match_wins_witness :
    envA.lookupTXT ("_dmarc." ++ "a.com") = Except.ok ["v=DMARC1; p=none"] ∧
    (checkDomain envA ("a.com") false).hasDMARC = true ∧
    (checkDomain envA ("a.com") false).dmarc = "v=DMARC1; p=none" := by
  refine ⟨rfl, ?_⟩
  exact (dmarc_first_match_wins envA ("a.com") false).1
    ["v=DMARC1; p=none"] [] ("v=DMARC1; p=none") []
    rfl rfl (by simp) (by decide)

/-- Witness for the MX claim on the concrete environment: both hosts
appear in resolver order, the first with its trailing dot stripped. -/
theorem mx_fields_from_lookup_witness :
    envA.lookupMX ("a.com") = Except.ok ["mx1.a.com.", "mx2.a.com"] ∧
    (checkDomain envA ("a.com") false).hasMX = true ∧
    (checkDomain envA ("a.com") false).mxHosts = ["mx1.a.com", "mx2.a.com"] := by
  refine ⟨rfl, ?_⟩
  have h := (mx_fields_from_lookup envA ("a.com") false).2.2.1
    ["mx1.a.com.", "mx2.a.com"] rfl (by decide)
  refine ⟨h.1, ?_⟩
  rw [h.2]
  decide

/-- Witness for the first-reachable-target claim: the first MX host
refuses, the second dials in 42 ms and wins. -/
theorem smtp_first_reachable_wins_witness :
    ((if (checkDomain envA ("a.com") true).mxHosts = []
        then ["a.com"] else (checkDomain envA ("a.com") true).mxHosts)
      = ["mx1.a.com"] ++ "mx2.a.com" :: []) ∧
    (checkDomain envA ("a.com") true).smtpReach = true ∧
    (checkDomain envA ("a.com") true).latencyMs = 42 ∧
    (checkDomain envA ("a.com") true).error = "" := by
  have htargets :
      (if (checkDomain envA ("a.com") true).mxHosts = []
        then ["a.com"] else (checkDomain envA ("a.com") true).mxHosts)
      = ["mx1.a.com"] ++ "mx2.a.com" :: [] := by decide
  have hfail : ∀ x ∈ (["mx1.a.com"] : List String),
      ∃ e, envA.dial (joinHostPort x ("25")) = Except.error e := by
    intro x hx
    have hx2 : x = "mx1.a.com" := List.mem_singleton.mp hx
    subst hx2
    exact ⟨"dial tcp: connection refused", rfl⟩
  exact ⟨htargets,
    smtp_first_reachable_wins envA ("a.com") ["mx1.a.com"] ("mx2.a.com") [] 42
      htargets hfail rfl⟩

/-- Witness for the all-targets-fail claim: a domain with no MX falls
back to itself, the dial fails, and the outcome carries the error
text of that dial. -/
theorem smtp_all_fail_sets_error_witness :
    ((if (checkDomain envA ("b.com") true).mxHosts = []
        then ["b.com"] else (checkDomain envA ("b.com") true).mxHosts)
      = [] ++ ["b.com"]) ∧
    (checkDomain envA ("b.com") true).error = "dial tcp: no route to host" ∧
    (checkDomain envA ("b.com") true).smtpReach = false := by
  have htargets :
      (if (checkDomain envA ("b.com") true).mxHosts = []
        then ["b.com"] else (checkDomain envA ("b.com") true).mxHosts)
      = [] ++ ["b.com"] := by decide
  exact ⟨htargets,
    (smtp_all_fail_sets_error envA ("b.com")).1 [] ("b.com")
      ("dial tcp: no route to host") htargets (by simp) rfl⟩

/-- Witness for the zero-latency claim on the concrete environment. -/
theorem not_reachable_latency_zero_witness :
    (checkDomain envA ("a.com") false).smtpReach = false ∧
    (checkDomain envA ("a.com") false).latencyMs = 0 :=
  ⟨by decide, not_reachable_latency_zero envA ("a.com") false (by decide)⟩

/-- Witness for the pipeline claim: two domains arriving in reversed
order still yield two outcomes, a permutation of the per-input map,
sorted by domain. -/
theorem pipeline_complete_and_sorted_witness :
    ((verifyAll envA false ["b.com", "a.com"]).reverse).Perm
      (verifyAll envA false ["b.com", "a.com"]) ∧
    (sortResults ((verifyAll envA false ["b.com", "a.com"]).reverse)).length = 2 ∧
    (sortResults ((verifyAll envA false ["b.com", "a.com"]).reverse)).Pairwise
      (fun a b => a.domain ≤ b.domain) := by
  have hperm := (verifyAll envA false ["b.com", "a.com"]).reverse_perm
  have h := pipeline_complete_and_sorted envA false ["b.com", "a.com"] _ hperm
  exact ⟨hperm, h.1, h.2.2⟩

/-- Concrete pacing run: rate one per second, two admissions, the k-th
admission consumes tick k and completes at time k. -/
def tickerRunA : TickerRun where
  rate := 1
  count := 2
  recvTime := fun i => (i.val : ℚ) + 1
  tickIndex := fun i => i.val + 1
  tick_pos := fun i => Nat.le_add_left 1 i.val
  tick_inj := fun a b h => Fin.ext (Nat.add_right_cancel h)
  recv_after_tick := fun i => by push_cast; norm_num

/-- Witness for the pacing claim: the concrete two-admission run at
rate one finishes no earlier than one second. -/
theorem rate_pacing_lower_bound_witness :
    (0 : ℚ) < tickerRunA.rate ∧ 1 ≤ tickerRunA.count ∧
    (∀ i, tickerRunA.recvTime i ≤ 2) ∧
    (((tickerRunA.count - 1 : ℕ) : ℚ) / tickerRunA.rate ≤ 2 ∧
      tickConfigured 0 = false) := by
  have h1 : (0 : ℚ) < tickerRunA.rate := by norm_num [tickerRunA]
  have h2 : 1 ≤ tickerRunA.count := by norm_num [tickerRunA]
  have h3 : ∀ i, tickerRunA.recvTime i ≤ 2 := by
    intro i
    have hi : i.val ≤ 1 := Nat.lt_succ_iff.mp i.isLt
    have hq : (i.val : ℚ) ≤ 1 := by exact_mod_cast hi
    simp only [tickerRunA]
    linarith
  exact ⟨h1, h2, h3, rate_pacing_lower_bound tickerRunA 2 h1 h2 h3⟩
